import Mathlib

/-!
# Beacon Remote: advertisement encoder and key-event state machine

A shallow embedding of `src/flipper_zero/beacon_remote.c`.

Conventions of the embedding

* Bytes are natural numbers; a store into a `uint8_t` object reduces modulo 256 (`uint8`).
* `int16_t sequence` is an `Int`; `sequence++` computes in `int` and converts the result back
  to the 16-bit signed type, which the target compiler does by reducing modulo 2^16 into
  `-32768 .. 32767` (`int16`).
* `x & 0xFF` on a two's-complement `int` is the Euclidean remainder `x % 256`, and `x >> 8`
  is the arithmetic shift, i.e. the floor quotient `x / 256` (Lean's `/` and `%` on `Int`
  are Euclidean, which agrees with floor for a positive divisor).
* The 32-byte stack buffer is a list of 32 cells, `none` being a cell that was never written.
  A store outside the buffer, or a load of a cell never written, is undefined behaviour in C
  and makes the embedded function return `none`; so does indexing `commands` out of range.
* The radio is modelled by the list of calls made to it, in program order. The calls to
  the GUI (`view_port_update`, the draw callback) change neither the state nor the radio and
  are left out.
* The event queue is modelled by the finite list of events it delivers;
  `furi_hal_bt_is_active()` is a boolean input of the run.
* `int command_index` is an `Int`; for an index inside the table the sums `command_index + 1`
  and `command_index - 1 + commands_count` are far from the bounds of `int`.
-/

namespace BeaconRemote

/-! ## Constants (lines 8-17) -/

/-- The array `app_service_uuid` (lines 10-13), in stored order. -/
def app_service_uuid : List Nat :=
  [0x9a, 0x6c, 0x4c, 0xd8, 0x32, 0x40, 0x1d, 0x94,
   0x6c, 0x40, 0xc8, 0x2f, 0x5c, 0x89, 0x3e, 0x18]

/-- The bytes of an ASCII string literal, without the terminating NUL. -/
def cstr (s : String) : List Nat := s.toList.map Char.toNat

/-- The table `commands` (line 16). -/
def commands : List (List Nat) :=
  [cstr "HELLO", cstr "STOP", cstr "GO", cstr "ALERT", cstr "SAFE"]

/-- The constant `commands_count` (line 17). -/
def commands_count : Int := 5

/-! ## State (lines 19-23) -/

/-- The struct `AppState`: `int command_index; int16_t sequence; bool advertising`. -/
structure AppState where
  command_index : Int
  sequence : Int
  advertising : Bool
deriving DecidableEq

/-- Calls made to the radio, with the bytes `buffer[0 .. len)` for the data update. -/
inductive RadioCall where
  | furi_hal_bt_stop_advertising
  | furi_hal_bt_update_advertising_data (data : List Nat)
  | furi_hal_bt_start_advertising
deriving DecidableEq

/-! ## Machine arithmetic -/

/-- Conversion to `uint8_t`. -/
def uint8 (n : Nat) : Nat := n % 256

/-- Conversion to `int16_t`: reduction modulo 2^16 into `-32768 .. 32767`. -/
def int16 (x : Int) : Int := (x + 32768) % 65536 - 32768

/-- The expression `(uint8_t)(sequence & 0xFF)` (line 57). -/
def seq_lo (sequence : Int) : Nat := (sequence % 256).toNat

/-- The expression `(uint8_t)((sequence >> 8) & 0xFF)` (line 58). -/
def seq_hi (sequence : Int) : Nat := ((sequence / 256) % 256).toNat

/-! ## The stack buffer -/

/-- A byte array whose cells may be indeterminate. -/
abbrev Buffer := List (Option Nat)

/-- The declaration `uint8_t buffer[n];` without initialiser. -/
def Buffer.uninit (n : Nat) : Buffer := List.replicate n none

/-- The assignment `buffer[i] = v`; out of bounds is undefined. -/
def store (buffer : Buffer) (i v : Nat) : Option Buffer :=
  if i < buffer.length then some (buffer.set i (some v)) else none

/-- The call `memcpy(&buffer[i], src, len(src))`, byte by byte. -/
def memcpy (buffer : Buffer) (i : Nat) : List Nat → Option Buffer
  | [] => some buffer
  | b :: src => (store buffer i b).bind fun buffer => memcpy buffer (i + 1) src

/-- The bytes `buffer[0 .. n)` as read by the callee; reading an indeterminate cell or past
the end is undefined. -/
def load : Buffer → Nat → Option (List Nat)
  | _, 0 => some []
  | some v :: buffer, n + 1 => (load buffer n).map fun data => v :: data
  | _, _ + 1 => none

/-! ## The encoder (lines 32-66) -/

/-- Lines 32-66 of `update_advertising` for the command string `cmd`: assemble the packet in
the 32-byte buffer and return the bytes `buffer[0 .. i)` passed to the radio. -/
def encode (sequence : Int) (cmd : List Nat) : Option (List Nat) := do
  let cmd_len := cmd.length
  let buffer := Buffer.uninit 32
  let i := 0
  -- Flags
  let buffer ← store buffer i 0x02
  let i := uint8 (i + 1)
  let buffer ← store buffer i 0x01
  let i := uint8 (i + 1)
  let buffer ← store buffer i 0x06
  let i := uint8 (i + 1)
  -- Service Data
  let data_len := uint8 (2 + cmd_len)
  let buffer ← store buffer i (uint8 (1 + 16 + data_len))
  let i := uint8 (i + 1)
  let buffer ← store buffer i 0x21
  let i := uint8 (i + 1)
  let buffer ← memcpy buffer i app_service_uuid
  let i := uint8 (i + 16)
  -- Sequence (Little Endian)
  let buffer ← store buffer i (seq_lo sequence)
  let i := uint8 (i + 1)
  let buffer ← store buffer i (seq_hi sequence)
  let i := uint8 (i + 1)
  let buffer ← memcpy buffer i cmd
  let i := uint8 (i + cmd_len)
  let i := if i > 31 then 31 else i
  load buffer i

/-- The bytes `buffer[0 .. 23)` once line 58 has run, for a command of `cmd_len` bytes. -/
def header (sequence : Int) (cmd_len : Nat) : List Nat :=
  [0x02, 0x01, 0x06, uint8 (1 + 16 + uint8 (2 + cmd_len)), 0x21] ++ app_service_uuid ++
    [seq_lo sequence, seq_hi sequence]

/-- The lookup `table[command_index]` with an `int` index; out of range is undefined. -/
def lookup (table : List (List Nat)) (command_index : Int) : Option (List Nat) :=
  if 0 ≤ command_index then table.get? command_index.toNat else none

/-- The function `update_advertising` (lines 25-70) over an arbitrary command table. -/
def update_advertising_with (table : List (List Nat)) (state : AppState) :
    Option (List RadioCall) :=
  if !state.advertising then
    some [RadioCall.furi_hal_bt_stop_advertising]
  else
    (lookup table state.command_index).bind fun cmd =>
      (encode state.sequence cmd).map fun data =>
        [RadioCall.furi_hal_bt_update_advertising_data data,
         RadioCall.furi_hal_bt_start_advertising]

/-- The function `update_advertising` (lines 25-70) with the table `commands`. -/
def update_advertising (state : AppState) : Option (List RadioCall) :=
  update_advertising_with commands state

/-! ## Input events (declared in the firmware header `input/input.h`) -/

/-- Modelled from the spec: the key identity of an input event. The enumeration `InputKey`
comes from a firmware header that is not part of the sources; the constructors are the four
keys the code compares against (Up, Down, Confirm and Back in the spec's words) and one
constructor for every other key. -/
inductive InputKey where
  | InputKeyUp
  | InputKeyDown
  | InputKeyOk
  | InputKeyBack
  | InputKeyOther (code : Nat)
deriving DecidableEq

/-- Modelled from the spec: the kind of an input event. The enumeration `InputType` comes
from a firmware header that is not part of the sources; the constructors are the short press,
the only kind the code compares against, and one constructor for every other kind. -/
inductive InputType where
  | InputTypeShort
  | InputTypeOther (code : Nat)
deriving DecidableEq

/-- The fields of `InputEvent` that the code reads: `event.type` and `event.key`. -/
structure InputEvent where
  type : InputType
  key : InputKey
deriving DecidableEq

open InputKey InputType RadioCall

/-! ## The application (lines 94-153) -/

/-- The initialiser of `state` (lines 98-102). -/
def initial_state : AppState :=
  { command_index := 0, sequence := 0, advertising := true }

/-- The result of one pass through the body of the `while` loop: the state, the radio calls
made during the pass, and whether the pass left the loop by `break`. -/
structure Pass where
  state : AppState
  calls : List RadioCall
  broke : Bool
deriving DecidableEq

/-- The assignments of the `InputKeyUp` branch (lines 125-126). The remainder `%` of C
truncates towards zero (`Int.tmod`). -/
def key_up (state : AppState) : AppState :=
  { state with
      command_index := Int.tmod (state.command_index + 1) commands_count,
      sequence := int16 (state.sequence + 1) }

/-- The assignments of the `InputKeyDown` branch (lines 129-130). -/
def key_down (state : AppState) : AppState :=
  { state with
      command_index := Int.tmod (state.command_index - 1 + commands_count) commands_count,
      sequence := int16 (state.sequence + 1) }

/-- The assignment of the `InputKeyOk` branch (line 134). -/
def key_ok (state : AppState) : AppState :=
  { state with sequence := int16 (state.sequence + 1) }

/-- The body of the `while` loop (lines 120-142) for one dequeued event. -/
def loop_body (state : AppState) (event : InputEvent) : Option Pass :=
  if event.type = InputTypeShort then
    if event.key = InputKeyBack then
      some { state := state, calls := [], broke := true }
    else
      let (state, update) :=
        if event.key = InputKeyUp then
          (key_up state, true)
        else if event.key = InputKeyDown then
          (key_down state, true)
        else if event.key = InputKeyOk then
          (key_ok state, true)
        else
          (state, false)
      if update then
        (update_advertising state).map fun calls =>
          { state := state, calls := calls, broke := false }
      else
        some { state := state, calls := [], broke := false }
  else
    some { state := state, calls := [], broke := false }

/-- The `while` loop (lines 119-143) over the events delivered by the queue, in order. The
result has `broke = true` when the loop was left by `break`, after which no further event
is dequeued, and `broke = false` when every delivered event was processed and the loop is
waiting for the next one. -/
def run_loop (state : AppState) : List InputEvent → Option Pass
  | [] => some { state := state, calls := [], broke := false }
  | event :: events =>
    (loop_body state event).bind fun pass =>
      if pass.broke then
        some pass
      else
        (run_loop pass.state events).map fun rest =>
          { rest with calls := pass.calls ++ rest.calls }

/-- The function `beacon_remote_app` (lines 94-153): `bt_active` is the answer of
`furi_hal_bt_is_active()`, `events` the events delivered by the queue. The final
`furi_hal_bt_stop_advertising` (line 145) is reached only once the loop has been left. -/
def beacon_remote_app (bt_active : Bool) (events : List InputEvent) : Option Pass :=
  let claim := if bt_active then [furi_hal_bt_stop_advertising] else []
  (update_advertising initial_state).bind fun startup =>
    (run_loop initial_state events).map fun pass =>
      { pass with
          calls := claim ++ startup ++ pass.calls ++
            (if pass.broke then [furi_hal_bt_stop_advertising] else []) }

/-- The payloads handed to `furi_hal_bt_update_advertising_data`, in call order. -/
def payloads : List RadioCall → List (List Nat)
  | [] => []
  | furi_hal_bt_update_advertising_data data :: calls => data :: payloads calls
  | _ :: calls => payloads calls

/-- A short press of `key`. -/
def short (key : InputKey) : InputEvent := { type := InputTypeShort, key := key }

/-- The unsigned 16-bit reading of the sequence field, the value that is transmitted. -/
def seq16 (sequence : Int) : Nat := (sequence % 65536).toNat

/-- Lines 119-145 from an arbitrary state: the `while` loop and then, once the loop has been
left, the `furi_hal_bt_stop_advertising` of line 145. -/
def loop_then_stop (state : AppState) (events : List InputEvent) : Option Pass :=
  (run_loop state events).map fun pass =>
    { pass with
        calls := pass.calls ++ (if pass.broke then [furi_hal_bt_stop_advertising] else []) }

/-- The states handed to `update_advertising` inside the loop (line 139), in order: the state
after each short press of Up, Down or Ok, up to the first short press of Back. -/
def content_states (state : AppState) : List InputEvent → List AppState
  | [] => []
  | event :: events =>
    if event.type = InputTypeShort then
      if event.key = InputKeyBack then []
      else if event.key = InputKeyUp then
        key_up state :: content_states (key_up state) events
      else if event.key = InputKeyDown then
        key_down state :: content_states (key_down state) events
      else if event.key = InputKeyOk then
        key_ok state :: content_states (key_ok state) events
      else content_states state events
    else content_states state events

/-- The packet of a state: the bytes the encoder produces for `commands[command_index]` and
the sequence of the state. -/
def packet_of (state : AppState) : Option (List Nat) :=
  (lookup commands state.command_index).bind fun cmd => encode state.sequence cmd

/-- The two radio calls of lines 68-69 for a packet. -/
def push (data : List Nat) : List RadioCall :=
  [furi_hal_bt_update_advertising_data data, furi_hal_bt_start_advertising]

/-- The value of `data_len` (line 48) for a command of `cmd_len` bytes. -/
def data_len (cmd_len : Nat) : Nat := uint8 (2 + cmd_len)

/-- The element-length byte stored at offset 3 (line 50). -/
def element_length (cmd_len : Nat) : Nat := uint8 (1 + 16 + data_len cmd_len)

/-- The cursor `i` after line 61, before the truncation test. -/
def cursor_after_copy (cmd_len : Nat) : Nat := uint8 (23 + cmd_len)

/-- The length handed to the radio: the cursor after lines 63-66. -/
def final_length (cmd_len : Nat) : Nat :=
  if cursor_after_copy cmd_len > 31 then 31 else cursor_after_copy cmd_len

/-- The bytes of the UUID `183e895c-2fc8-406c-941d-4032d84c6c9a` of the comment in line 8,
in the order in which the text gives them (most significant byte first). -/
def canonical_uuid : List Nat :=
  [0x18, 0x3e, 0x89, 0x5c, 0x2f, 0xc8, 0x40, 0x6c,
   0x94, 0x1d, 0x40, 0x32, 0xd8, 0x4c, 0x6c, 0x9a]

/-- A listener's reading of a packet, in the words of the round-trip property: the sequence
is bytes 21 and 22 read little-endian, the command the `byte 3 - 19` bytes from offset 23. -/
def decode (data : List Nat) : Option (Nat × List Nat) :=
  match data.get? 3, data.get? 21, data.get? 22 with
  | some byte3, some byte21, some byte22 =>
    some (byte21 + 256 * byte22, (data.drop 23).take (byte3 - 19))
  | _, _, _ => none


/-! ## Arithmetic of the sequence bytes -/

theorem seq_lo_eq (sequence : Int) : seq_lo sequence = seq16 sequence % 256 := by
  unfold seq_lo seq16
  omega

theorem seq_hi_eq (sequence : Int) : seq_hi sequence = seq16 sequence / 256 := by
  unfold seq_hi seq16
  omega

theorem seq_bytes_little_endian (sequence : Int) :
    (seq_lo sequence : Int) + 256 * (seq_hi sequence : Int) = sequence % 65536 := by
  unfold seq_lo seq_hi
  omega

/-! ## The buffer operations -/

theorem store_eq_some_iff {buffer buffer2 : Buffer} {i v : Nat} :
    store buffer i v = some buffer2 ↔ i < buffer.length ∧ buffer2 = buffer.set i (some v) := by
  unfold store
  split <;> simp_all [eq_comm]

theorem memcpy_eq_none (src : List Nat) : ∀ (buffer : Buffer) (i : Nat),
    src ≠ [] → buffer.length < i + src.length → memcpy buffer i src = none := by
  induction src with
  | nil => intro buffer i h; exact absurd rfl h
  | cons b src ih =>
    intro buffer i _ h
    unfold memcpy
    cases hs : store buffer i b with
    | none => rfl
    | some buffer2 =>
      obtain ⟨hi, rfl⟩ := store_eq_some_iff.mp hs
      simp only [Option.bind]
      have hne : src ≠ [] := by
        rintro rfl
        simp at h
        omega
      apply ih _ _ hne
      simp at h ⊢
      omega

theorem memcpy_eq_some (src : List Nat) : ∀ (buffer : Buffer) (i : Nat),
    i + src.length ≤ buffer.length →
      memcpy buffer i src =
        some (buffer.take i ++ src.map some ++ buffer.drop (i + src.length)) := by
  induction src with
  | nil => intro buffer i _; simp [memcpy]
  | cons b src ih =>
    intro buffer i h
    simp only [List.length_cons] at h
    have hi : i < buffer.length := by omega
    have hs : store buffer i b = some (buffer.set i (some b)) :=
      store_eq_some_iff.mpr ⟨hi, rfl⟩
    unfold memcpy
    rw [hs]
    simp only [Option.bind]
    rw [ih _ _ (by simp; omega)]
    rw [List.set_eq_take_cons_drop _ hi]
    have hl : (buffer.take i).length = i := List.length_take_of_le (by omega)
    generalize buffer.take i = front at hl
    subst hl
    have hd : buffer.drop (front.length + (b :: src).length) =
        (buffer.drop (front.length + 1)).drop src.length := by
      rw [List.drop_drop]
      congr 1
      simp only [List.length_cons]
      omega
    rw [hd, Nat.add_assoc, List.take_append, List.drop_append]
    simp [Nat.add_comm 1 src.length]

theorem load_map_some (data : List Nat) : ∀ (rest : Buffer) (n : Nat), n ≤ data.length →
    load (data.map some ++ rest) n = some (data.take n) := by
  induction data with
  | nil => intro rest n h; simp at h; subst h; simp [load]
  | cons v data ih =>
    intro rest n h
    cases n with
    | zero => simp [load]
    | succ n =>
      simp only [List.length_cons] at h
      simp [load, ih rest n (by omega)]

/-! ## The encoder on short and on long commands -/

theorem header_length (sequence : Int) (cmd_len : Nat) :
    (header sequence cmd_len).length = 23 := by
  simp [header, app_service_uuid]

/-- A store at the end of the part of the buffer written so far. -/
theorem store_written (data : List Nat) (n i v : Nat) (h : i = data.length) :
    store (data.map some ++ List.replicate (n + 1) none) i v =
      some ((data ++ [v]).map some ++ List.replicate n none) := by
  subst h
  rw [store_eq_some_iff]
  constructor
  · simp
  · simp [List.replicate_succ]

/-- A copy to the end of the part of the buffer written so far. -/
theorem memcpy_written (data src : List Nat) (n m i : Nat) (h : i = data.length)
    (hn : n = src.length + m) :
    memcpy (data.map some ++ List.replicate n none) i src =
      some ((data ++ src).map some ++ List.replicate m none) := by
  subst h hn
  rw [memcpy_eq_some _ _ _ (by simp)]
  simp [List.take_append_eq_append_take, List.drop_append_eq_append_drop]

theorem uninit_eq (n : Nat) :
    Buffer.uninit n = List.map some [] ++ List.replicate n none := rfl

/-- The first 23 stores always succeed; what is left of the encoder is the copy of the
command (line 60), the cursor arithmetic and the read by the radio. -/
theorem encode_eq_memcpy (sequence : Int) (cmd : List Nat) :
    encode sequence cmd =
      (memcpy ((header sequence cmd.length).map some ++ List.replicate 9 none) 23 cmd).bind
        fun buffer =>
          load buffer (if uint8 (23 + cmd.length) > 31 then 31 else uint8 (23 + cmd.length)) := by
  generalize hn : cmd.length = n
  simp only [encode, hn, Option.bind_eq_bind, uint8, Nat.reduceAdd, Nat.reduceMod,
    Nat.zero_add, uninit_eq]
  rw [store_written _ 31 0 2, Option.some_bind,
    store_written _ 30 1 1, Option.some_bind,
    store_written _ 29 2 6, Option.some_bind,
    store_written _ 28 3 _, Option.some_bind,
    store_written _ 27 4 33, Option.some_bind,
    memcpy_written _ app_service_uuid 27 11 5, Option.some_bind,
    store_written _ 10 21 _, Option.some_bind,
    store_written _ 9 22 _, Option.some_bind]
  all_goals rfl

/-- For a command of at most 9 bytes every store is inside the buffer, and the bytes handed
to the radio are the first 31 bytes of flags, element header, identifier, sequence and
command. -/
theorem encode_of_length_le_nine (sequence : Int) (cmd : List Nat) (h : cmd.length ≤ 9) :
    encode sequence cmd =
      some (([0x02, 0x01, 0x06, 19 + cmd.length, 0x21] ++ app_service_uuid ++
        [seq_lo sequence, seq_hi sequence] ++ cmd).take 31) := by
  have hlen := header_length sequence cmd.length
  have hhdr : [0x02, 0x01, 0x06, 19 + cmd.length, 0x21] ++ app_service_uuid ++
      [seq_lo sequence, seq_hi sequence] = header sequence cmd.length := by
    have : uint8 (1 + 16 + uint8 (2 + cmd.length)) = 19 + cmd.length := by
      unfold uint8
      omega
    simp [header, this]
  rw [hhdr, encode_eq_memcpy, memcpy_eq_some _ _ _ (by simp [hlen]; omega)]
  have htake : ((header sequence cmd.length).map some ++ List.replicate 9 none).take 23 =
      (header sequence cmd.length).map some := by
    rw [List.take_left']
    simp [hlen]
  rw [htake, ← List.map_append]
  simp only [Option.bind]
  rw [load_map_some]
  · congr 1
    by_cases h8 : cmd.length ≤ 8
    · have hc : uint8 (23 + cmd.length) = 23 + cmd.length := by unfold uint8; omega
      rw [hc, if_neg (by omega), List.take_of_length_le (by simp [hlen]),
        List.take_of_length_le (by simp [hlen]; omega)]
    · have hc : uint8 (23 + cmd.length) = 32 := by unfold uint8; omega
      rw [hc, if_pos (by omega)]
  · simp only [List.length_append, hlen]
    unfold uint8
    split <;> omega

/-- A command of 10 bytes or more makes `memcpy` (line 60) store past `buffer[31]`. -/
theorem encode_of_ten_le_length (sequence : Int) (cmd : List Nat) (h : 10 ≤ cmd.length) :
    encode sequence cmd = none := by
  rw [encode_eq_memcpy, memcpy_eq_none]
  · rfl
  · rintro rfl
    simp at h
  · simp [header_length]
    omega


/-- With advertising enabled and a valid table index, `update_advertising` is the encoder
followed by the two radio calls of lines 68-69. -/
theorem update_advertising_with_eq (table : List (List Nat)) (state : AppState)
    (cmd : List Nat) (h_adv : state.advertising = true)
    (h_cmd : lookup table state.command_index = some cmd) :
    update_advertising_with table state =
      (encode state.sequence cmd).map fun data =>
        [furi_hal_bt_update_advertising_data data, furi_hal_bt_start_advertising] := by
  unfold update_advertising_with
  rw [h_adv, h_cmd, if_neg (by decide), Option.some_bind]

/-! ## Claims about the encoder -/

/-- C1: for every sequence value and every command of at most 8 bytes, the payload that
`update_advertising` hands to the radio when advertising is enabled is exactly
`0x02 0x01 0x06`, the byte `19 + len(command)`, `0x21`, the 16 bytes of `app_service_uuid`
in stored order, the low byte and the high byte of the sequence, and then the command bytes
unchanged and in order. -/
theorem C1_payload_layout (table : List (List Nat)) (state : AppState) (cmd : List Nat)
    (h_adv : state.advertising = true)
    (h_cmd : lookup table state.command_index = some cmd)
    (h_len : cmd.length ≤ 8) :
    update_advertising_with table state =
      some [furi_hal_bt_update_advertising_data
              ([0x02, 0x01, 0x06, 19 + cmd.length, 0x21] ++ app_service_uuid ++
                [seq16 state.sequence % 256, seq16 state.sequence / 256] ++ cmd),
            furi_hal_bt_start_advertising] := by
  rw [update_advertising_with_eq table state cmd h_adv h_cmd,
    encode_of_length_le_nine _ _ (by omega), seq_lo_eq, seq_hi_eq,
    List.take_of_length_le (by simp [app_service_uuid]; omega)]
  rfl

/-- C1 at the table `commands`, entry 1 ("STOP"), sequence 513. -/
theorem C1_payload_layout_witness :
    update_advertising { command_index := 1, sequence := 513, advertising := true } =
      some [furi_hal_bt_update_advertising_data
              ([0x02, 0x01, 0x06, 23, 0x21] ++ app_service_uuid ++ [1, 2] ++ cstr "STOP"),
            furi_hal_bt_start_advertising] :=
  C1_payload_layout commands { command_index := 1, sequence := 513, advertising := true }
    (cstr "STOP") rfl (by decide) (by decide)


/-- The valid indices of the table `commands`, one by one. -/
theorem lookup_commands (command_index : Int) (h_lo : 0 ≤ command_index)
    (h_hi : command_index < commands_count) :
    ∃ label, lookup commands command_index = some label ∧ label.length ≤ 5 := by
  unfold commands_count at h_hi
  have h : command_index = 0 ∨ command_index = 1 ∨ command_index = 2 ∨ command_index = 3 ∨
      command_index = 4 := by omega
  rcases h with rfl | rfl | rfl | rfl | rfl
  · exact ⟨cstr "HELLO", by decide, by decide⟩
  · exact ⟨cstr "STOP", by decide, by decide⟩
  · exact ⟨cstr "GO", by decide, by decide⟩
  · exact ⟨cstr "ALERT", by decide, by decide⟩
  · exact ⟨cstr "SAFE", by decide, by decide⟩

/-- C2: for every valid `command_index` (0..4) of the catalog HELLO, STOP, GO, ALERT, SAFE
and every sequence value, the length passed to the radio is exactly
`5 + 16 + 2 + len(label)`, which is at most 31: no catalog command is truncated and the
packet ends with the complete label. -/
theorem C2_catalog_length (state : AppState) (h_adv : state.advertising = true)
    (h_lo : 0 ≤ state.command_index) (h_hi : state.command_index < commands_count) :
    ∃ label data,
      lookup commands state.command_index = some label ∧
      update_advertising state =
        some [furi_hal_bt_update_advertising_data data, furi_hal_bt_start_advertising] ∧
      data.length = 5 + 16 + 2 + label.length ∧
      data.length ≤ 31 ∧
      data.drop (5 + 16 + 2) = label ∧
      label <:+ data := by
  obtain ⟨label, h_cmd, h_len⟩ := lookup_commands state.command_index h_lo h_hi
  have h_full : (([0x02, 0x01, 0x06, 19 + label.length, 0x21] ++ app_service_uuid ++
      [seq_lo state.sequence, seq_hi state.sequence] ++ label).take 31) =
      [0x02, 0x01, 0x06, 19 + label.length, 0x21] ++ app_service_uuid ++
      [seq_lo state.sequence, seq_hi state.sequence] ++ label :=
    List.take_of_length_le (by simp [app_service_uuid]; omega)
  refine ⟨label, [0x02, 0x01, 0x06, 19 + label.length, 0x21] ++ app_service_uuid ++
      [seq_lo state.sequence, seq_hi state.sequence] ++ label, h_cmd, ?_, ?_, ?_, ?_, ?_⟩
  · unfold update_advertising
    rw [update_advertising_with_eq commands state label h_adv h_cmd,
      encode_of_length_le_nine _ _ (by omega), h_full]
    rfl
  · simp [app_service_uuid]
    omega
  · simp [app_service_uuid]
    omega
  · simp [app_service_uuid]
  · exact List.suffix_append _ _

/-- C2 at the last catalog entry, "SAFE", with a negative stored sequence. -/
theorem C2_catalog_length_witness :
    ∃ label data,
      lookup commands 4 = some label ∧
      update_advertising { command_index := 4, sequence := -2, advertising := true } =
        some [furi_hal_bt_update_advertising_data data, furi_hal_bt_start_advertising] ∧
      data.length = 5 + 16 + 2 + label.length ∧
      data.length ≤ 31 ∧
      data.drop (5 + 16 + 2) = label ∧
      label <:+ data :=
  C2_catalog_length { command_index := 4, sequence := -2, advertising := true } rfl
    (by decide) (by decide)

/-- C3: a command label of 30 bytes (computed length 53) does not come out as 31 bytes: line 60
copies all 30 bytes to `buffer[23 .. 52]` before line 63 tests the cursor, so the copy runs
past the 32-byte buffer and the encoder has no defined result, whatever the sequence; the
same holds from 10 bytes on. A 9-byte command is the only length for which lines 63-66
truncate: its packet has 31 bytes and loses the last command byte. -/
theorem C3_thirty_byte_command_overflows :
    (∀ sequence : Int, encode sequence (List.replicate 30 0x41) = none) ∧
    (∀ sequence : Int, encode sequence (List.replicate 10 0x41) = none) ∧
    (∀ sequence : Int, (encode sequence (List.replicate 9 0x41)).map List.length = some 31) := by
  refine ⟨?_, ?_, ?_⟩
  · intro sequence
    exact encode_of_ten_le_length sequence _ (by decide)
  · intro sequence
    exact encode_of_ten_le_length sequence _ (by decide)
  · intro sequence
    rw [encode_of_length_le_nine sequence _ (by decide)]
    rfl

/-- C4: for every value of the sequence field, bytes 21 and 22 of the encoded packet satisfy
`byte21 + 256 * byte22 = sequence mod 65536` (little-endian, low byte first). -/
theorem C4_sequence_bytes (table : List (List Nat)) (state : AppState) (cmd : List Nat)
    (h_adv : state.advertising = true)
    (h_cmd : lookup table state.command_index = some cmd)
    (h_len : cmd.length ≤ 9) :
    ∃ data byte21 byte22,
      update_advertising_with table state =
        some [furi_hal_bt_update_advertising_data data, furi_hal_bt_start_advertising] ∧
      data.get? 21 = some byte21 ∧
      data.get? 22 = some byte22 ∧
      (byte21 : Int) + 256 * (byte22 : Int) = state.sequence % 65536 := by
  refine ⟨([0x02, 0x01, 0x06, 19 + cmd.length, 0x21] ++ app_service_uuid ++
      [seq_lo state.sequence, seq_hi state.sequence] ++ cmd).take 31,
    seq_lo state.sequence, seq_hi state.sequence, ?_, ?_, ?_,
    seq_bytes_little_endian state.sequence⟩
  · rw [update_advertising_with_eq table state cmd h_adv h_cmd,
      encode_of_length_le_nine _ _ h_len]
    rfl
  · simp [app_service_uuid, List.getElem?_take]
  · simp [app_service_uuid, List.getElem?_take]

/-- C4 at the catalog entry "GO" with the stored sequence -2, transmitted as 0xFE 0xFF. -/
theorem C4_sequence_bytes_witness :
    ∃ data byte21 byte22,
      update_advertising_with commands
          { command_index := 2, sequence := -2, advertising := true } =
        some [furi_hal_bt_update_advertising_data data, furi_hal_bt_start_advertising] ∧
      data.get? 21 = some byte21 ∧
      data.get? 22 = some byte22 ∧
      (byte21 : Int) + 256 * (byte22 : Int) = (-2 : Int) % 65536 :=
  C4_sequence_bytes commands { command_index := 2, sequence := -2, advertising := true }
    (cstr "GO") rfl (by decide) (by decide)


/-! ## The key transitions -/

theorem update_advertising_defined (state : AppState) (h_lo : 0 ≤ state.command_index)
    (h_hi : state.command_index < commands_count) :
    ∃ calls, update_advertising state = some calls := by
  cases h_adv : state.advertising with
  | false =>
    refine ⟨[furi_hal_bt_stop_advertising], ?_⟩
    unfold update_advertising update_advertising_with
    rw [h_adv]
    rfl
  | true =>
    obtain ⟨label, h_cmd, h_len⟩ := lookup_commands state.command_index h_lo h_hi
    unfold update_advertising
    rw [update_advertising_with_eq commands state label h_adv h_cmd,
      encode_of_length_le_nine _ _ (by omega)]
    exact ⟨_, rfl⟩

theorem loop_body_up (state : AppState) :
    loop_body state (short InputKeyUp) =
      (update_advertising (key_up state)).map fun calls =>
        { state := key_up state, calls := calls, broke := false } := by
  simp [loop_body, short]

theorem loop_body_down (state : AppState) :
    loop_body state (short InputKeyDown) =
      (update_advertising (key_down state)).map fun calls =>
        { state := key_down state, calls := calls, broke := false } := by
  simp [loop_body, short]

theorem loop_body_ok (state : AppState) :
    loop_body state (short InputKeyOk) =
      (update_advertising (key_ok state)).map fun calls =>
        { state := key_ok state, calls := calls, broke := false } := by
  simp [loop_body, short]

theorem loop_body_back (state : AppState) :
    loop_body state (short InputKeyBack) =
      some { state := state, calls := [], broke := true } := by
  simp [loop_body, short]

theorem loop_body_other_key (state : AppState) (code : Nat) :
    loop_body state (short (InputKeyOther code)) =
      some { state := state, calls := [], broke := false } := by
  simp [loop_body, short]

theorem loop_body_other_type (state : AppState) (code : Nat) (key : InputKey) :
    loop_body state { type := InputTypeOther code, key := key } =
      some { state := state, calls := [], broke := false } := by
  simp [loop_body]

theorem key_up_index (state : AppState) (h_lo : 0 ≤ state.command_index)
    (h_hi : state.command_index < commands_count) :
    0 ≤ (key_up state).command_index ∧ (key_up state).command_index < commands_count := by
  unfold commands_count at h_hi
  have h : state.command_index = 0 ∨ state.command_index = 1 ∨ state.command_index = 2 ∨
      state.command_index = 3 ∨ state.command_index = 4 := by omega
  unfold key_up
  rcases h with h | h | h | h | h <;> simp only [h] <;> decide

theorem key_down_index (state : AppState) (h_lo : 0 ≤ state.command_index)
    (h_hi : state.command_index < commands_count) :
    0 ≤ (key_down state).command_index ∧ (key_down state).command_index < commands_count := by
  unfold commands_count at h_hi
  have h : state.command_index = 0 ∨ state.command_index = 1 ∨ state.command_index = 2 ∨
      state.command_index = 3 ∨ state.command_index = 4 := by omega
  unfold key_down
  rcases h with h | h | h | h | h <;> simp only [h] <;> decide


theorem key_ok_index (state : AppState) :
    (key_ok state).command_index = state.command_index := rfl

theorem int16_succ (sequence : Int) (h_min : -32768 ≤ sequence) (h_max : sequence ≤ 32767) :
    -32768 ≤ int16 (sequence + 1) ∧ int16 (sequence + 1) ≤ 32767 ∧
      seq16 (int16 (sequence + 1)) = (seq16 sequence + 1) % 65536 ∧
      (sequence < 32767 → int16 (sequence + 1) = sequence + 1) ∧
      (sequence = 32767 → int16 (sequence + 1) = -32768) := by
  unfold int16 seq16
  omega

/-- One pass of the loop body from a state with a valid index is defined and ends in a state
with a valid index and the same advertising flag. -/
theorem loop_body_index (state : AppState) (event : InputEvent)
    (h_lo : 0 ≤ state.command_index) (h_hi : state.command_index < commands_count) :
    ∃ pass, loop_body state event = some pass ∧
      0 ≤ pass.state.command_index ∧ pass.state.command_index < commands_count ∧
      pass.state.advertising = state.advertising := by
  obtain ⟨type, key⟩ := event
  cases type with
  | InputTypeOther code => exact ⟨_, loop_body_other_type state code key, h_lo, h_hi, rfl⟩
  | InputTypeShort =>
    cases key with
    | InputKeyUp =>
      have hv := key_up_index state h_lo h_hi
      obtain ⟨calls, hc⟩ := update_advertising_defined (key_up state) hv.1 hv.2
      refine ⟨{ state := key_up state, calls := calls, broke := false }, ?_, hv.1, hv.2, rfl⟩
      rw [show ({ type := InputTypeShort, key := InputKeyUp } : InputEvent) =
        short InputKeyUp from rfl, loop_body_up, hc]
      rfl
    | InputKeyDown =>
      have hv := key_down_index state h_lo h_hi
      obtain ⟨calls, hc⟩ := update_advertising_defined (key_down state) hv.1 hv.2
      refine ⟨{ state := key_down state, calls := calls, broke := false }, ?_, hv.1, hv.2, rfl⟩
      rw [show ({ type := InputTypeShort, key := InputKeyDown } : InputEvent) =
        short InputKeyDown from rfl, loop_body_down, hc]
      rfl
    | InputKeyOk =>
      obtain ⟨calls, hc⟩ := update_advertising_defined (key_ok state) h_lo h_hi
      refine ⟨{ state := key_ok state, calls := calls, broke := false }, ?_, h_lo, h_hi, rfl⟩
      rw [show ({ type := InputTypeShort, key := InputKeyOk } : InputEvent) =
        short InputKeyOk from rfl, loop_body_ok, hc]
      rfl
    | InputKeyBack => exact ⟨_, loop_body_back state, h_lo, h_hi, rfl⟩
    | InputKeyOther code => exact ⟨_, loop_body_other_key state code, h_lo, h_hi, rfl⟩

theorem run_loop_cons (state : AppState) (event : InputEvent) (events : List InputEvent) :
    run_loop state (event :: events) =
      (loop_body state event).bind fun pass =>
        if pass.broke then
          some pass
        else
          (run_loop pass.state events).map fun rest =>
            { rest with calls := pass.calls ++ rest.calls } := rfl

/-- The loop from a state with a valid index is defined on every list of events and ends in
a state with a valid index. -/
theorem run_loop_index (events : List InputEvent) : ∀ (state : AppState),
    0 ≤ state.command_index → state.command_index < commands_count →
    ∃ pass, run_loop state events = some pass ∧
      0 ≤ pass.state.command_index ∧ pass.state.command_index < commands_count := by
  induction events with
  | nil => intro state h_lo h_hi; exact ⟨_, rfl, h_lo, h_hi⟩
  | cons event events ih =>
    intro state h_lo h_hi
    obtain ⟨pass, h_body, h_lo1, h_hi1, _⟩ := loop_body_index state event h_lo h_hi
    rw [run_loop_cons, h_body, Option.some_bind]
    cases h_broke : pass.broke with
    | true => exact ⟨pass, by simp, h_lo1, h_hi1⟩
    | false =>
      obtain ⟨rest, h_rest, h_lo2, h_hi2⟩ := ih pass.state h_lo1 h_hi1
      rw [h_rest]
      exact ⟨{ rest with calls := pass.calls ++ rest.calls }, by simp, h_lo2, h_hi2⟩


/-- The state after a short Up from a state with a valid index, whatever follows. -/
theorem run_loop_up_state (state : AppState) (events : List InputEvent)
    (h_lo : 0 ≤ state.command_index) (h_hi : state.command_index < commands_count) :
    (run_loop state (short InputKeyUp :: events)).map Pass.state =
      (run_loop (key_up state) events).map Pass.state := by
  have hv := key_up_index state h_lo h_hi
  obtain ⟨calls, hc⟩ := update_advertising_defined (key_up state) hv.1 hv.2
  rw [run_loop_cons, loop_body_up, hc, Option.map_some', Option.some_bind]
  generalize run_loop (key_up state) events = result
  cases result <;> rfl

/-- The state after a short Down from a state with a valid index, whatever follows. -/
theorem run_loop_down_state (state : AppState) (events : List InputEvent)
    (h_lo : 0 ≤ state.command_index) (h_hi : state.command_index < commands_count) :
    (run_loop state (short InputKeyDown :: events)).map Pass.state =
      (run_loop (key_down state) events).map Pass.state := by
  have hv := key_down_index state h_lo h_hi
  obtain ⟨calls, hc⟩ := update_advertising_defined (key_down state) hv.1 hv.2
  rw [run_loop_cons, loop_body_down, hc, Option.map_some', Option.some_bind]
  generalize run_loop (key_down state) events = result
  cases result <;> rfl

theorem exists_of_map_state {result : Option Pass} {state : AppState}
    (h : result.map Pass.state = some state) : ∃ pass, result = some pass ∧ pass.state = state := by
  cases result with
  | none => cases h
  | some pass => exact ⟨pass, rfl, by simpa using h⟩


/-! ## Claims about the state machine -/

/-- C5 fails as stated: the sequence field is an `int16_t`, so from 32767 a short Ok leads to
-32768 and not to `(32767 + 1) mod 65536 = 32768`. -/
theorem C5_counterexample :
    (loop_body { command_index := 0, sequence := 32767, advertising := true }
        (short InputKeyOk)).map (fun pass => pass.state.sequence) = some (-32768) ∧
    (loop_body { command_index := 0, sequence := 32767, advertising := true }
        (short InputKeyOk)).map (fun pass => pass.state.sequence) ≠
      some ((32767 + 1) % 65536) := by
  decide

/-- C5, amended: for every state with an index in 0..4 and a signed 16-bit sequence, a short
press of Up, Down or Ok changes the sequence to `sequence + 1` reduced into -32768..32767:
it increments by exactly 1, except that from 32767 it becomes -32768; the 16-bit value that
is transmitted (`sequence mod 65536`) becomes `(old + 1) mod 65536`, so from 65535 it becomes
0; on Ok the command index is unchanged. -/
theorem C5_sequence_increment (state : AppState) (key : InputKey)
    (h_key : key = InputKeyUp ∨ key = InputKeyDown ∨ key = InputKeyOk)
    (h_lo : 0 ≤ state.command_index) (h_hi : state.command_index < commands_count)
    (h_min : -32768 ≤ state.sequence) (h_max : state.sequence ≤ 32767) :
    ∃ pass, loop_body state (short key) = some pass ∧
      -32768 ≤ pass.state.sequence ∧ pass.state.sequence ≤ 32767 ∧
      seq16 pass.state.sequence = (seq16 state.sequence + 1) % 65536 ∧
      (state.sequence < 32767 → pass.state.sequence = state.sequence + 1) ∧
      (state.sequence = 32767 → pass.state.sequence = -32768) ∧
      (seq16 state.sequence = 65535 → seq16 pass.state.sequence = 0) ∧
      (key = InputKeyOk → pass.state.command_index = state.command_index) := by
  obtain ⟨h1, h2, h3, h4, h5⟩ := int16_succ state.sequence h_min h_max
  have h6 : seq16 state.sequence = 65535 → seq16 (int16 (state.sequence + 1)) = 0 := by
    intro h
    rw [h3, h]
  rcases h_key with rfl | rfl | rfl
  · have hv := key_up_index state h_lo h_hi
    obtain ⟨calls, hc⟩ := update_advertising_defined (key_up state) hv.1 hv.2
    exact ⟨{ state := key_up state, calls := calls, broke := false },
      by rw [loop_body_up, hc]; rfl, h1, h2, h3, h4, h5, h6, by intro h; cases h⟩
  · have hv := key_down_index state h_lo h_hi
    obtain ⟨calls, hc⟩ := update_advertising_defined (key_down state) hv.1 hv.2
    exact ⟨{ state := key_down state, calls := calls, broke := false },
      by rw [loop_body_down, hc]; rfl, h1, h2, h3, h4, h5, h6, by intro h; cases h⟩
  · obtain ⟨calls, hc⟩ := update_advertising_defined (key_ok state) h_lo h_hi
    exact ⟨{ state := key_ok state, calls := calls, broke := false },
      by rw [loop_body_ok, hc]; rfl, h1, h2, h3, h4, h5, h6, fun _ => rfl⟩

/-- C5, amended, at the stored sequence -1 (transmitted as 65535) and a short Ok. -/
theorem C5_sequence_increment_witness :
    ∃ pass, loop_body { command_index := 3, sequence := -1, advertising := true }
        (short InputKeyOk) = some pass ∧
      -32768 ≤ pass.state.sequence ∧ pass.state.sequence ≤ 32767 ∧
      seq16 pass.state.sequence = (seq16 (-1) + 1) % 65536 ∧
      ((-1 : Int) < 32767 → pass.state.sequence = -1 + 1) ∧
      ((-1 : Int) = 32767 → pass.state.sequence = -32768) ∧
      (seq16 (-1) = 65535 → seq16 pass.state.sequence = 0) ∧
      (InputKeyOk = InputKeyOk → pass.state.command_index = 3) :=
  C5_sequence_increment { command_index := 3, sequence := -1, advertising := true } InputKeyOk
    (Or.inr (Or.inr rfl)) (by decide) (by decide) (by decide) (by decide)

/-- C6 fails as stated: the packet pushed at startup has 28 bytes, not 25. -/
theorem C6_counterexample :
    (beacon_remote_app false []).map (fun pass => (payloads pass.calls).map List.length) =
      some [28] ∧
    (beacon_remote_app false []).map (fun pass => (payloads pass.calls).map List.length) ≠
      some [25] := by
  decide

/-- C6, amended: in the initial state (index 0, sequence 0, advertising on) the packet pushed
to the radio at startup is the encoding of "HELLO" with sequence 0, a 28-byte packet whose
last five bytes are the ASCII bytes of "HELLO" and whose sequence bytes are `0x00 0x00`. -/
theorem C6_startup_packet (bt_active : Bool) :
    initial_state = { command_index := 0, sequence := 0, advertising := true } ∧
    lookup commands initial_state.command_index = some (cstr "HELLO") ∧
    (beacon_remote_app bt_active []).map (fun pass => payloads pass.calls) =
      (encode 0 (cstr "HELLO")).map (fun data => [data]) ∧
    encode 0 (cstr "HELLO") =
      some [0x02, 0x01, 0x06, 0x18, 0x21,
            0x9a, 0x6c, 0x4c, 0xd8, 0x32, 0x40, 0x1d, 0x94,
            0x6c, 0x40, 0xc8, 0x2f, 0x5c, 0x89, 0x3e, 0x18,
            0x00, 0x00,
            0x48, 0x45, 0x4c, 0x4c, 0x4f] ∧
    (encode 0 (cstr "HELLO")).map List.length = some 28 ∧
    (encode 0 (cstr "HELLO")).map (fun data => data.drop 23) = some [0x48, 0x45, 0x4c, 0x4c, 0x4f] ∧
    cstr "HELLO" = [0x48, 0x45, 0x4c, 0x4c, 0x4f] := by
  cases bt_active <;> decide

/-- C7: from the initial state one short Up yields index 1 (label "STOP") and sequence 1, and
the packet then pushed to the radio has the sequence bytes `0x01 0x00` at offsets 21 and 22
and carries the command bytes "STOP". -/
theorem C7_one_next (bt_active : Bool) :
    (beacon_remote_app bt_active [short InputKeyUp]).map (fun pass => pass.state) =
      some { command_index := 1, sequence := 1, advertising := true } ∧
    lookup commands 1 = some (cstr "STOP") ∧
    (beacon_remote_app bt_active [short InputKeyUp]).map
        (fun pass => (payloads pass.calls).drop 1) =
      some [[0x02, 0x01, 0x06, 0x17, 0x21,
             0x9a, 0x6c, 0x4c, 0xd8, 0x32, 0x40, 0x1d, 0x94,
             0x6c, 0x40, 0xc8, 0x2f, 0x5c, 0x89, 0x3e, 0x18,
             0x01, 0x00] ++ cstr "STOP"] ∧
    (loop_body initial_state (short InputKeyUp)).map (fun pass => pass.calls) =
      some [furi_hal_bt_update_advertising_data
              ([0x02, 0x01, 0x06, 0x17, 0x21] ++ app_service_uuid ++ [0x01, 0x00] ++
                cstr "STOP"),
            furi_hal_bt_start_advertising] := by
  cases bt_active <;> decide


/-- C8: in every state reached from the initial state by any finite sequence of input events,
`0 <= command_index < commands_count`, so the lookup `commands[command_index]` of the
encoder and of the renderer is never out of range. -/
theorem C8_index_in_range (bt_active : Bool) (events : List InputEvent) :
    ∃ pass, beacon_remote_app bt_active events = some pass ∧
      0 ≤ pass.state.command_index ∧ pass.state.command_index < commands_count ∧
      ∃ cmd, lookup commands pass.state.command_index = some cmd := by
  obtain ⟨startup, h_start⟩ :=
    update_advertising_defined initial_state (by decide) (by decide)
  obtain ⟨pass, h_run, h_lo, h_hi⟩ :=
    run_loop_index events initial_state (by decide) (by decide)
  obtain ⟨cmd, h_cmd, _⟩ := lookup_commands pass.state.command_index h_lo h_hi
  refine ⟨{ pass with
      calls := (if bt_active then [furi_hal_bt_stop_advertising] else []) ++ startup ++
        pass.calls ++ (if pass.broke then [furi_hal_bt_stop_advertising] else []) },
    ?_, h_lo, h_hi, cmd, h_cmd⟩
  unfold beacon_remote_app
  rw [h_start, h_run]
  rfl

/-- C9: for every valid `command_index`, five short Up events in a row bring the index back
to its original value. -/
theorem C9_next_five_times (state : AppState)
    (h_lo : 0 ≤ state.command_index) (h_hi : state.command_index < commands_count) :
    ∃ pass, run_loop state (List.replicate 5 (short InputKeyUp)) = some pass ∧
      pass.state.command_index = state.command_index := by
  have h1 := key_up_index state h_lo h_hi
  have h2 := key_up_index _ h1.1 h1.2
  have h3 := key_up_index _ h2.1 h2.2
  have h4 := key_up_index _ h3.1 h3.2
  have h_map : (run_loop state (List.replicate 5 (short InputKeyUp))).map Pass.state =
      some (key_up (key_up (key_up (key_up (key_up state))))) := by
    simp only [List.replicate]
    rw [run_loop_up_state _ _ h_lo h_hi, run_loop_up_state _ _ h1.1 h1.2,
      run_loop_up_state _ _ h2.1 h2.2, run_loop_up_state _ _ h3.1 h3.2,
      run_loop_up_state _ _ h4.1 h4.2]
    rfl
  obtain ⟨pass, h_pass, h_state⟩ := exists_of_map_state h_map
  refine ⟨pass, h_pass, ?_⟩
  rw [h_state]
  unfold commands_count at h_hi
  have h : state.command_index = 0 ∨ state.command_index = 1 ∨ state.command_index = 2 ∨
      state.command_index = 3 ∨ state.command_index = 4 := by omega
  simp only [key_up]
  rcases h with h | h | h | h | h <;> rw [h] <;> decide

/-- C9 at index 3 ("ALERT"). -/
theorem C9_next_five_times_witness :
    ∃ pass, run_loop { command_index := 3, sequence := 7, advertising := true }
        (List.replicate 5 (short InputKeyUp)) = some pass ∧
      pass.state.command_index = 3 :=
  C9_next_five_times { command_index := 3, sequence := 7, advertising := true }
    (by decide) (by decide)

/-- C10: for every valid `command_index`, a short Up followed by a short Down, and a short
Down followed by a short Up, both restore the original index; the advertising flag is
unchanged and the sequence has advanced by 2 modulo 65536. -/
theorem C10_previous_inverts_next (state : AppState)
    (h_lo : 0 ≤ state.command_index) (h_hi : state.command_index < commands_count) :
    (∃ pass, run_loop state [short InputKeyUp, short InputKeyDown] = some pass ∧
      pass.state.command_index = state.command_index ∧
      pass.state.advertising = state.advertising ∧
      pass.state.sequence % 65536 = (state.sequence + 2) % 65536) ∧
    (∃ pass, run_loop state [short InputKeyDown, short InputKeyUp] = some pass ∧
      pass.state.command_index = state.command_index ∧
      pass.state.advertising = state.advertising ∧
      pass.state.sequence % 65536 = (state.sequence + 2) % 65536) := by
  have hu := key_up_index state h_lo h_hi
  have hd := key_down_index state h_lo h_hi
  have h_ud : (run_loop state [short InputKeyUp, short InputKeyDown]).map Pass.state =
      some (key_down (key_up state)) := by
    rw [run_loop_up_state _ _ h_lo h_hi, run_loop_down_state _ _ hu.1 hu.2]
    rfl
  have h_du : (run_loop state [short InputKeyDown, short InputKeyUp]).map Pass.state =
      some (key_up (key_down state)) := by
    rw [run_loop_down_state _ _ h_lo h_hi, run_loop_up_state _ _ hd.1 hd.2]
    rfl
  have h_seq : int16 (int16 (state.sequence + 1) + 1) % 65536 =
      (state.sequence + 2) % 65536 := by
    unfold int16
    omega
  unfold commands_count at h_hi
  have h : state.command_index = 0 ∨ state.command_index = 1 ∨ state.command_index = 2 ∨
      state.command_index = 3 ∨ state.command_index = 4 := by omega
  constructor
  · obtain ⟨pass, h_pass, h_state⟩ := exists_of_map_state h_ud
    refine ⟨pass, h_pass, ?_, ?_, ?_⟩
    · rw [h_state]
      simp only [key_up, key_down]
      rcases h with h | h | h | h | h <;> rw [h] <;> decide
    · rw [h_state]
      rfl
    · rw [h_state]
      exact h_seq
  · obtain ⟨pass, h_pass, h_state⟩ := exists_of_map_state h_du
    refine ⟨pass, h_pass, ?_, ?_, ?_⟩
    · rw [h_state]
      simp only [key_up, key_down]
      rcases h with h | h | h | h | h <;> rw [h] <;> decide
    · rw [h_state]
      rfl
    · rw [h_state]
      exact h_seq

/-- C10 at index 0 ("HELLO"), where Down wraps to the last entry, and sequence 32767. -/
theorem C10_previous_inverts_next_witness :
    (∃ pass, run_loop { command_index := 0, sequence := 32767, advertising := true }
        [short InputKeyUp, short InputKeyDown] = some pass ∧
      pass.state.command_index = 0 ∧
      pass.state.advertising = true ∧
      pass.state.sequence % 65536 = (32767 + 2) % 65536) ∧
    (∃ pass, run_loop { command_index := 0, sequence := 32767, advertising := true }
        [short InputKeyDown, short InputKeyUp] = some pass ∧
      pass.state.command_index = 0 ∧
      pass.state.advertising = true ∧
      pass.state.sequence % 65536 = (32767 + 2) % 65536) :=
  C10_previous_inverts_next { command_index := 0, sequence := 32767, advertising := true }
    (by decide) (by decide)


/-! ## Leaving the loop and ignored events -/

theorem run_loop_back (state : AppState) (events : List InputEvent) :
    run_loop state (short InputKeyBack :: events) =
      some { state := state, calls := [], broke := true } := by
  rw [run_loop_cons, loop_body_back, Option.some_bind]
  rfl

/-- The application is the startup push followed by the loop and the final stop. -/
theorem beacon_remote_app_eq (bt_active : Bool) (events : List InputEvent) :
    beacon_remote_app bt_active events =
      (update_advertising initial_state).bind fun startup =>
        (loop_then_stop initial_state events).map fun pass =>
          { pass with
              calls := (if bt_active then [furi_hal_bt_stop_advertising] else []) ++ startup ++
                pass.calls } := by
  unfold beacon_remote_app loop_then_stop
  generalize update_advertising initial_state = startup
  generalize run_loop initial_state events = result
  cases startup with
  | none => rfl
  | some startup =>
    cases result with
    | none => rfl
    | some pass => simp [List.append_assoc]

/-- C11: for every state, a short press of Back leaves the loop (`broke`), is followed by
exactly one `furi_hal_bt_stop_advertising` and by no data update and no start, leaves
`command_index`, `sequence` and `advertising` unchanged, and no event queued after it is
processed: the result does not depend on the events that follow. -/
theorem C11_exit (state : AppState) (events : List InputEvent) :
    loop_body state (short InputKeyBack) =
      some { state := state, calls := [], broke := true } ∧
    run_loop state (short InputKeyBack :: events) = run_loop state [short InputKeyBack] ∧
    loop_then_stop state (short InputKeyBack :: events) =
      some { state := state, calls := [furi_hal_bt_stop_advertising], broke := true } := by
  refine ⟨loop_body_back state, ?_, ?_⟩
  · rw [run_loop_back, run_loop_back]
  · unfold loop_then_stop
    rw [run_loop_back]
    rfl

/-- C12: for every state and every event whose kind is not the short press, whatever its
key, the event triggers no transition: the state is unchanged, the loop continues, no radio
call is made, and the loop goes on with the next event from the same state. -/
theorem C12_other_kinds_ignored (state : AppState) (event : InputEvent)
    (events : List InputEvent) (h_type : event.type ≠ InputTypeShort) :
    loop_body state event = some { state := state, calls := [], broke := false } ∧
    run_loop state (event :: events) = run_loop state events := by
  have h_body : loop_body state event = some { state := state, calls := [], broke := false } := by
    unfold loop_body
    rw [if_neg h_type]
  refine ⟨h_body, ?_⟩
  rw [run_loop_cons, h_body, Option.some_bind]
  generalize run_loop state events = result
  cases result with
  | none => rfl
  | some pass => simp

/-- C12 at a long press (kind 3) of Back in the state (2, 41, true), followed by an Up. -/
theorem C12_other_kinds_ignored_witness :
    loop_body { command_index := 2, sequence := 41, advertising := true }
        { type := InputTypeOther 3, key := InputKeyBack } =
      some { state := { command_index := 2, sequence := 41, advertising := true },
             calls := [], broke := false } ∧
    run_loop { command_index := 2, sequence := 41, advertising := true }
        ({ type := InputTypeOther 3, key := InputKeyBack } :: [short InputKeyUp]) =
      run_loop { command_index := 2, sequence := 41, advertising := true } [short InputKeyUp] :=
  C12_other_kinds_ignored { command_index := 2, sequence := 41, advertising := true }
    { type := InputTypeOther 3, key := InputKeyBack } [short InputKeyUp] (by decide)


/-! ## The radio calls of a run -/

/-- In a state with a valid index and advertising on, `update_advertising` pushes the packet
of the state. -/
theorem update_advertising_eq_push (state : AppState) (h_adv : state.advertising = true)
    (h_lo : 0 ≤ state.command_index) (h_hi : state.command_index < commands_count) :
    ∃ data, packet_of state = some data ∧ update_advertising state = some (push data) := by
  obtain ⟨label, h_cmd, h_len⟩ := lookup_commands state.command_index h_lo h_hi
  obtain ⟨data, h_enc⟩ : ∃ data, encode state.sequence label = some data :=
    ⟨_, encode_of_length_le_nine state.sequence label (by omega)⟩
  refine ⟨data, ?_, ?_⟩
  · unfold packet_of
    rw [h_cmd, Option.some_bind, h_enc]
  · unfold update_advertising
    rw [update_advertising_with_eq commands state label h_adv h_cmd, h_enc]
    rfl

/-- The calls of the loop from a state with a valid index and advertising on: one push per
content state, and the loop is left exactly when a short Back is among the events. -/
theorem run_loop_calls (events : List InputEvent) : ∀ (state : AppState),
    state.advertising = true → 0 ≤ state.command_index →
    state.command_index < commands_count →
    ∃ (packets : List (List Nat)) (pass : Pass),
      (content_states state events).map packet_of = packets.map some ∧
      run_loop state events = some pass ∧
      pass.calls = (packets.map push).flatten ∧
      pass.broke = decide (short InputKeyBack ∈ events) ∧
      pass.state ∈ state :: content_states state events := by
  induction events with
  | nil =>
    intro state _ _ _
    exact ⟨[], { state := state, calls := [], broke := false }, rfl, rfl, rfl, by simp,
      List.mem_cons_self _ _⟩
  | cons event events ih =>
    intro state h_adv h_lo h_hi
    have h_pushed : ∀ next : AppState, next.advertising = true → 0 ≤ next.command_index →
        next.command_index < commands_count → event ≠ short InputKeyBack →
        (∀ calls, update_advertising next = some calls →
          loop_body state event = some { state := next, calls := calls, broke := false }) →
        content_states state (event :: events) = next :: content_states next events →
        ∃ (packets : List (List Nat)) (pass : Pass),
          (content_states state (event :: events)).map packet_of = packets.map some ∧
          run_loop state (event :: events) = some pass ∧
          pass.calls = (packets.map push).flatten ∧
          pass.broke = decide (short InputKeyBack ∈ event :: events) ∧
          pass.state ∈ state :: content_states state (event :: events) := by
      intro next h_adv1 h_lo1 h_hi1 h_ne h_body h_states
      obtain ⟨data, h_packet, h_push⟩ := update_advertising_eq_push next h_adv1 h_lo1 h_hi1
      obtain ⟨packets, rest, h_map, h_run, h_calls, h_broke, h_mem⟩ :=
        ih next h_adv1 h_lo1 h_hi1
      refine ⟨data :: packets, { rest with calls := push data ++ rest.calls },
        ?_, ?_, ?_, ?_, ?_⟩
      · rw [h_states, List.map_cons, List.map_cons, h_packet, h_map]
      · rw [run_loop_cons, h_body _ h_push, Option.some_bind, h_run]
        rfl
      · simp [h_calls]
      · simp [h_broke, Ne.symm h_ne]
      · rw [h_states]
        exact List.mem_cons_of_mem _ h_mem
    have h_skipped : event ≠ short InputKeyBack →
        loop_body state event = some { state := state, calls := [], broke := false } →
        content_states state (event :: events) = content_states state events →
        ∃ (packets : List (List Nat)) (pass : Pass),
          (content_states state (event :: events)).map packet_of = packets.map some ∧
          run_loop state (event :: events) = some pass ∧
          pass.calls = (packets.map push).flatten ∧
          pass.broke = decide (short InputKeyBack ∈ event :: events) ∧
          pass.state ∈ state :: content_states state (event :: events) := by
      intro h_ne h_body h_states
      obtain ⟨packets, rest, h_map, h_run, h_calls, h_broke, h_mem⟩ :=
        ih state h_adv h_lo h_hi
      refine ⟨packets, { rest with calls := [] ++ rest.calls }, ?_, ?_, ?_, ?_, ?_⟩
      · rw [h_states, h_map]
      · rw [run_loop_cons, h_body, Option.some_bind, h_run]
        rfl
      · simp [h_calls]
      · simp [h_broke, Ne.symm h_ne]
      · rw [h_states]
        exact h_mem
    obtain ⟨type, key⟩ := event
    cases type with
    | InputTypeOther code =>
      exact h_skipped (by simp [short]) (loop_body_other_type state code key)
        (by simp [content_states])
    | InputTypeShort =>
      cases key with
      | InputKeyUp =>
        have hv := key_up_index state h_lo h_hi
        refine h_pushed (key_up state) h_adv hv.1 hv.2 (by simp [short]) ?_
          (by simp [content_states])
        intro calls hc
        rw [show ({ type := InputTypeShort, key := InputKeyUp } : InputEvent) =
          short InputKeyUp from rfl, loop_body_up, hc]
        rfl
      | InputKeyDown =>
        have hv := key_down_index state h_lo h_hi
        refine h_pushed (key_down state) h_adv hv.1 hv.2 (by simp [short]) ?_
          (by simp [content_states])
        intro calls hc
        rw [show ({ type := InputTypeShort, key := InputKeyDown } : InputEvent) =
          short InputKeyDown from rfl, loop_body_down, hc]
        rfl
      | InputKeyOk =>
        refine h_pushed (key_ok state) h_adv h_lo h_hi (by simp [short]) ?_
          (by simp [content_states])
        intro calls hc
        rw [show ({ type := InputTypeShort, key := InputKeyOk } : InputEvent) =
          short InputKeyOk from rfl, loop_body_ok, hc]
        rfl
      | InputKeyBack =>
        refine ⟨[], { state := state, calls := [], broke := true }, ?_, ?_, rfl, ?_,
          List.mem_cons_self _ _⟩
        · simp [content_states]
        · exact run_loop_back state events
        · simp [short]
      | InputKeyOther code =>
        exact h_skipped (by simp [short]) (loop_body_other_key state code)
          (by simp [content_states])


/-- C13: the radio calls of a run are, in order: one `furi_hal_bt_stop_advertising` at claim
time if and only if a session was active; then, once for the initial state and once for the
state after each short press of Up, Down or Ok up to the first short Back, one
`furi_hal_bt_update_advertising_data` carrying the packet of that state, immediately followed
by one `furi_hal_bt_start_advertising`; then one `furi_hal_bt_stop_advertising` at shutdown,
which is reached exactly when a short Back was delivered. -/
theorem C13_radio_protocol (bt_active : Bool) (events : List InputEvent) :
    ∃ (packets : List (List Nat)) (pass : Pass),
      (initial_state :: content_states initial_state events).map packet_of =
        packets.map some ∧
      beacon_remote_app bt_active events = some pass ∧
      pass.calls =
        (if bt_active then [furi_hal_bt_stop_advertising] else []) ++
        (packets.map fun data =>
          [furi_hal_bt_update_advertising_data data, furi_hal_bt_start_advertising]).flatten ++
        (if short InputKeyBack ∈ events then [furi_hal_bt_stop_advertising] else []) := by
  obtain ⟨data, h_packet, h_push⟩ :=
    update_advertising_eq_push initial_state rfl (by decide) (by decide)
  obtain ⟨packets, pass, h_map, h_run, h_calls, h_broke, _⟩ :=
    run_loop_calls events initial_state rfl (by decide) (by decide)
  refine ⟨data :: packets,
    { pass with
        calls := (if bt_active then [furi_hal_bt_stop_advertising] else []) ++ push data ++
          pass.calls ++ (if pass.broke then [furi_hal_bt_stop_advertising] else []) },
    ?_, ?_, ?_⟩
  · rw [List.map_cons, List.map_cons, h_packet, h_map]
  · unfold beacon_remote_app
    rw [h_push, h_run]
    rfl
  · have h_flat : (List.map (fun data =>
        [furi_hal_bt_update_advertising_data data, furi_hal_bt_start_advertising])
        (data :: packets)).flatten = push data ++ (packets.map push).flatten := rfl
    rw [h_flat, h_calls, h_broke]
    by_cases h_back : short InputKeyBack ∈ events <;> simp [h_back]


/-! ## Invariants of the states of a run -/

/-- Every state handed to `update_advertising` inside the loop has the advertising flag of
the state the loop started from, a valid index, and a sequence that fits an `int16_t`. -/
theorem content_states_invariant (events : List InputEvent) : ∀ (state : AppState),
    0 ≤ state.command_index → state.command_index < commands_count →
    ∀ next ∈ content_states state events,
      next.advertising = state.advertising ∧
      0 ≤ next.command_index ∧ next.command_index < commands_count ∧
      -32768 ≤ next.sequence ∧ next.sequence ≤ 32767 := by
  induction events with
  | nil => intro state _ _ next h; cases h
  | cons event events ih =>
    intro state h_lo h_hi next h_next
    have h_range : ∀ x : Int, -32768 ≤ int16 x ∧ int16 x ≤ 32767 := by
      intro x
      unfold int16
      omega
    have h_step : ∀ mid : AppState, mid.advertising = state.advertising →
        0 ≤ mid.command_index → mid.command_index < commands_count →
        -32768 ≤ mid.sequence → mid.sequence ≤ 32767 →
        next ∈ mid :: content_states mid events →
        next.advertising = state.advertising ∧
        0 ≤ next.command_index ∧ next.command_index < commands_count ∧
        -32768 ≤ next.sequence ∧ next.sequence ≤ 32767 := by
      intro mid h_adv h_lo1 h_hi1 h_min h_max h_mem
      rcases List.mem_cons.mp h_mem with rfl | h_mem
      · exact ⟨h_adv, h_lo1, h_hi1, h_min, h_max⟩
      · obtain ⟨h1, h2⟩ := ih mid h_lo1 h_hi1 next h_mem
        exact ⟨h1.trans h_adv, h2⟩
    obtain ⟨type, key⟩ := event
    cases type with
    | InputTypeOther code =>
      exact ih state h_lo h_hi next (by simpa [content_states] using h_next)
    | InputTypeShort =>
      cases key with
      | InputKeyUp =>
        have hv := key_up_index state h_lo h_hi
        exact h_step (key_up state) rfl hv.1 hv.2 (h_range _).1 (h_range _).2
          (by simpa [content_states] using h_next)
      | InputKeyDown =>
        have hv := key_down_index state h_lo h_hi
        exact h_step (key_down state) rfl hv.1 hv.2 (h_range _).1 (h_range _).2
          (by simpa [content_states] using h_next)
      | InputKeyOk =>
        exact h_step (key_ok state) rfl h_lo h_hi (h_range _).1 (h_range _).2
          (by simpa [content_states] using h_next)
      | InputKeyBack => simp [content_states] at h_next
      | InputKeyOther code =>
        exact ih state h_lo h_hi next (by simpa [content_states] using h_next)

/-- The final state of a run is the initial state or one of the content states. -/
theorem beacon_remote_app_state (bt_active : Bool) (events : List InputEvent) :
    ∃ pass, beacon_remote_app bt_active events = some pass ∧
      pass.state ∈ initial_state :: content_states initial_state events := by
  obtain ⟨data, _, h_push⟩ :=
    update_advertising_eq_push initial_state rfl (by decide) (by decide)
  obtain ⟨packets, pass, _, h_run, _, _, h_mem⟩ :=
    run_loop_calls events initial_state rfl (by decide) (by decide)
  refine ⟨{ pass with
      calls := (if bt_active then [furi_hal_bt_stop_advertising] else []) ++ push data ++
        pass.calls ++ (if pass.broke then [furi_hal_bt_stop_advertising] else []) },
    ?_, h_mem⟩
  unfold beacon_remote_app
  rw [h_push, h_run]
  rfl


/-- The state after a short Ok from a state with a valid index, whatever follows. -/
theorem run_loop_ok_state (state : AppState) (events : List InputEvent)
    (h_lo : 0 ≤ state.command_index) (h_hi : state.command_index < commands_count) :
    (run_loop state (short InputKeyOk :: events)).map Pass.state =
      (run_loop (key_ok state) events).map Pass.state := by
  obtain ⟨calls, hc⟩ := update_advertising_defined (key_ok state) h_lo h_hi
  rw [run_loop_cons, loop_body_ok, hc, Option.map_some', Option.some_bind]
  generalize run_loop (key_ok state) events = result
  cases result <;> rfl

/-- The state after `n` short Ok in a row: only the sequence moves, by `n` modulo 2^16. -/
theorem run_loop_ok_replicate (n : Nat) : ∀ (state : AppState),
    0 ≤ state.command_index → state.command_index < commands_count →
    -32768 ≤ state.sequence → state.sequence ≤ 32767 →
    (run_loop state (List.replicate n (short InputKeyOk))).map Pass.state =
      some { state with sequence := int16 (state.sequence + n) } := by
  induction n with
  | zero =>
    intro state _ _ h_min h_max
    have h : int16 (state.sequence + ((0 : Nat) : Int)) = state.sequence := by
      unfold int16
      omega
    rw [h]
    rfl
  | succ n ih =>
    intro state h_lo h_hi h_min h_max
    have h_range : -32768 ≤ (key_ok state).sequence ∧ (key_ok state).sequence ≤ 32767 := by
      unfold key_ok int16
      constructor <;> simp only <;> omega
    have h : int16 ((key_ok state).sequence + (n : Int)) =
        int16 (state.sequence + ((n + 1 : Nat) : Int)) := by
      unfold key_ok int16
      simp only
      omega
    rw [List.replicate_succ, run_loop_ok_state _ _ h_lo h_hi,
      ih (key_ok state) h_lo h_hi h_range.1 h_range.2, h]
    rfl

theorem beacon_remote_app_map_state (bt_active : Bool) (events : List InputEvent) :
    (beacon_remote_app bt_active events).map Pass.state =
      (run_loop initial_state events).map Pass.state := by
  obtain ⟨startup, h_start⟩ :=
    update_advertising_defined initial_state (by decide) (by decide)
  unfold beacon_remote_app
  rw [h_start]
  generalize run_loop initial_state events = result
  cases result <;> rfl

/-! ## Claims about the identifier and the invariants -/

/-- C14: the 16-byte service identifier `app_service_uuid`, placed at bytes 5..20 of every
packet, is the byte reversal of the big-endian bytes of the UUID
183e895c-2fc8-406c-941d-4032d84c6c9a: byte `k` of the identifier is byte `15 - k` of
18 3e 89 5c 2f c8 40 6c 94 1d 40 32 d8 4c 6c 9a, for every `k` in 0..15. -/
theorem C14_service_identifier (sequence : Int) (cmd : List Nat) (k : Nat)
    (h_len : cmd.length ≤ 9) (h_k : k < 16) :
    app_service_uuid.get? k = canonical_uuid.get? (15 - k) ∧
    app_service_uuid = canonical_uuid.reverse ∧
    canonical_uuid.length = 16 ∧
    ∃ data, encode sequence cmd = some data ∧ (data.drop 5).take 16 = app_service_uuid := by
  have h_all : ∀ j, j < 16 → app_service_uuid.get? j = canonical_uuid.get? (15 - j) := by
    decide
  refine ⟨h_all k h_k, by decide, by decide, _, encode_of_length_le_nine sequence cmd h_len, ?_⟩
  simp [app_service_uuid, List.take_take]

/-- C14 at the command "SAFE", sequence 9 and the last byte of the identifier. -/
theorem C14_service_identifier_witness :
    app_service_uuid.get? 15 = canonical_uuid.get? (15 - 15) ∧
    app_service_uuid = canonical_uuid.reverse ∧
    canonical_uuid.length = 16 ∧
    ∃ data, encode 9 (cstr "SAFE") = some data ∧ (data.drop 5).take 16 = app_service_uuid :=
  C14_service_identifier 9 (cstr "SAFE") 15 (by decide) (by decide)

/-- C15 fails as stated: after 32768 short presses of Ok the sequence held in the state is
-32768, a negative value. -/
theorem C15_counterexample :
    ((beacon_remote_app false (List.replicate 32768 (short InputKeyOk))).map Pass.state).map
        AppState.sequence = some (-32768) ∧
    ¬ (0 : Int) ≤ -32768 := by
  refine ⟨?_, by decide⟩
  rw [beacon_remote_app_map_state,
    run_loop_ok_replicate 32768 initial_state (by decide) (by decide) (by decide) (by decide)]
  decide

/-- C15, amended: in every state reached from the initial state the sequence held in the
state (the value given to the renderer) is a 16-bit signed integer, in -32768..32767; the
value that is transmitted, the sequence modulo 65536, lies in 0..65535. -/
theorem C15_sequence_range (bt_active : Bool) (events : List InputEvent) :
    ∃ pass, beacon_remote_app bt_active events = some pass ∧
      -32768 ≤ pass.state.sequence ∧ pass.state.sequence ≤ 32767 ∧
      seq16 pass.state.sequence ≤ 65535 ∧
      (seq16 pass.state.sequence : Int) = pass.state.sequence % 65536 := by
  obtain ⟨pass, h_app, h_mem⟩ := beacon_remote_app_state bt_active events
  have h_seq : -32768 ≤ pass.state.sequence ∧ pass.state.sequence ≤ 32767 := by
    rcases List.mem_cons.mp h_mem with h | h
    · rw [h]
      decide
    · exact (content_states_invariant events initial_state (by decide) (by decide)
        pass.state h).2.2.2
  refine ⟨pass, h_app, h_seq.1, h_seq.2, ?_, ?_⟩ <;> unfold seq16 <;> omega

/-- C20: no transition writes the advertising flag; it is true in every state reached from
the initial state, also after Back, and every state handed to `update_advertising` during
a run has the flag on, so that the call encodes and starts and the branch that only stops
is not taken. -/
theorem C20_advertising_always_on (bt_active : Bool) (events : List InputEvent)
    (state : AppState) (event : InputEvent) :
    (loop_body state event).map (fun pass => pass.state.advertising) =
      (loop_body state event).map (fun _ => state.advertising) ∧
    ∃ pass, beacon_remote_app bt_active events = some pass ∧
      pass.state.advertising = true ∧
      ∀ called ∈ initial_state :: content_states initial_state events,
        called.advertising = true ∧
        ∃ data, update_advertising called =
          some [furi_hal_bt_update_advertising_data data, furi_hal_bt_start_advertising] := by
  have h_called : ∀ called ∈ initial_state :: content_states initial_state events,
      called.advertising = true ∧
      ∃ data, update_advertising called =
        some [furi_hal_bt_update_advertising_data data, furi_hal_bt_start_advertising] := by
    intro called h_mem
    have h_inv : called.advertising = true ∧ 0 ≤ called.command_index ∧
        called.command_index < commands_count := by
      rcases List.mem_cons.mp h_mem with h | h
      · rw [h]
        decide
      · obtain ⟨h1, h2, h3, _⟩ :=
          content_states_invariant events initial_state (by decide) (by decide) called h
        exact ⟨h1, h2, h3⟩
    obtain ⟨data, _, h_push⟩ := update_advertising_eq_push called h_inv.1 h_inv.2.1 h_inv.2.2
    exact ⟨h_inv.1, data, h_push⟩
  obtain ⟨pass, h_app, h_mem⟩ := beacon_remote_app_state bt_active events
  refine ⟨?_, pass, h_app, (h_called pass.state h_mem).1, h_called⟩
  obtain ⟨type, key⟩ := event
  cases type with
  | InputTypeOther code => rw [loop_body_other_type]; rfl
  | InputTypeShort =>
    cases key with
    | InputKeyUp =>
      rw [show ({ type := InputTypeShort, key := InputKeyUp } : InputEvent) =
        short InputKeyUp from rfl, loop_body_up]
      generalize update_advertising (key_up state) = result
      cases result <;> rfl
    | InputKeyDown =>
      rw [show ({ type := InputTypeShort, key := InputKeyDown } : InputEvent) =
        short InputKeyDown from rfl, loop_body_down]
      generalize update_advertising (key_down state) = result
      cases result <;> rfl
    | InputKeyOk =>
      rw [show ({ type := InputTypeShort, key := InputKeyOk } : InputEvent) =
        short InputKeyOk from rfl, loop_body_ok]
      generalize update_advertising (key_ok state) = result
      cases result <;> rfl
    | InputKeyBack =>
      rw [show ({ type := InputTypeShort, key := InputKeyBack } : InputEvent) =
        short InputKeyBack from rfl, loop_body_back]
      rfl
    | InputKeyOther code =>
      rw [show ({ type := InputTypeShort, key := InputKeyOther code } : InputEvent) =
        short (InputKeyOther code) from rfl, loop_body_other_key]
      rfl


/-! ## Claims about the element length, the round trip and the buffer -/

/-- For a command of at most 9 bytes: the packet, its length and its byte 3. -/
theorem encode_short_facts (sequence : Int) (cmd : List Nat) (h : cmd.length ≤ 9) :
    ∃ data, encode sequence cmd = some data ∧
      data.length = min (23 + cmd.length) 31 ∧
      data.get? 3 = some (19 + cmd.length) := by
  refine ⟨_, encode_of_length_le_nine sequence cmd h, ?_, ?_⟩
  · simp [app_service_uuid]
    omega
  · simp [List.getElem?_take]

theorem element_length_eq (cmd_len : Nat) (h : cmd_len ≤ 236) :
    element_length cmd_len = 19 + cmd_len := by
  unfold element_length data_len uint8
  omega

/-- C16: for a command of 233 bytes, inside the range `8 < len <= 236` of the claim, the
code does not hand the radio a 31-byte packet whose byte 3 is `19 + 233`: the copy of
line 60 stores past `buffer[31]`, so the encoder has no defined result, and the 8-bit cursor
wraps in line 61 (`23 + 233 = 256` becomes 0), so the test of line 63 does not fire and the
length left for the radio is 0. The copy leaves the buffer from 10 bytes on. At 9 bytes,
where every store is inside the buffer, the code does what the claim says: 31 bytes are
handed over and byte 3 is `19 + 9`. -/
theorem C16_long_command_has_no_packet :
    (∀ sequence : Int, encode sequence (List.replicate 233 0x41) = none) ∧
    cursor_after_copy 233 = 0 ∧
    final_length 233 = 0 ∧
    (∀ sequence : Int, encode sequence (List.replicate 10 0x41) = none) ∧
    (∀ sequence : Int, ∃ data, encode sequence (List.replicate 9 0x41) = some data ∧
      data.length = 31 ∧ data.get? 3 = some (19 + 9)) := by
  refine ⟨?_, by decide, by decide, ?_, ?_⟩
  · intro sequence
    exact encode_of_ten_le_length sequence _ (by rw [List.length_replicate]; omega)
  · intro sequence
    exact encode_of_ten_le_length sequence _ (by decide)
  · intro sequence
    obtain ⟨data, h_enc, h_length, h_byte⟩ :=
      encode_short_facts sequence (List.replicate 9 0x41) (by decide)
    rw [List.length_replicate] at h_length h_byte
    exact ⟨data, h_enc, h_length, h_byte⟩

/-- The listener's reading of the packet of a command of at most 8 bytes. -/
theorem decode_encode (sequence : Int) (cmd : List Nat) (h : cmd.length ≤ 8) :
    ∃ data, encode sequence cmd = some data ∧ decode data = some (seq16 sequence, cmd) := by
  refine ⟨_, encode_of_length_le_nine sequence cmd (by omega), ?_⟩
  rw [List.take_of_length_le (by simp [app_service_uuid]; omega), seq_lo_eq, seq_hi_eq]
  have h_seq : seq16 sequence % 256 + 256 * (seq16 sequence / 256) = seq16 sequence :=
    Nat.mod_add_div _ _
  simp [decode, app_service_uuid, h_seq]

/-- C17: for every sequence `s` and every command `c` of at most 8 bytes, reading bytes 21..22
little-endian and taking the `byte 3 - 19` bytes from offset 23 gives back
`(s mod 65536, c)`; hence two such packets are equal if and only if their sequences agree
modulo 65536 and their commands are equal. -/
theorem C17_round_trip (s1 s2 : Int) (c1 c2 : List Nat)
    (h1 : c1.length ≤ 8) (h2 : c2.length ≤ 8) :
    (∃ data, encode s1 c1 = some data ∧ decode data = some (seq16 s1, c1)) ∧
    (seq16 s1 : Int) = s1 % 65536 ∧
    (encode s1 c1 = encode s2 c2 ↔ s1 % 65536 = s2 % 65536 ∧ c1 = c2) := by
  refine ⟨decode_encode s1 c1 h1, by unfold seq16; omega, ⟨?_, ?_⟩⟩
  · intro h_eq
    obtain ⟨d1, h_enc1, h_dec1⟩ := decode_encode s1 c1 h1
    obtain ⟨d2, h_enc2, h_dec2⟩ := decode_encode s2 c2 h2
    rw [h_enc1, h_enc2] at h_eq
    cases h_eq
    rw [h_dec1] at h_dec2
    have h_pair : (seq16 s1, c1) = (seq16 s2, c2) := Option.some.inj h_dec2
    have h_seq : seq16 s1 = seq16 s2 := congrArg Prod.fst h_pair
    have h_cmd : c1 = c2 := congrArg Prod.snd h_pair
    refine ⟨?_, h_cmd⟩
    unfold seq16 at h_seq
    omega
  · rintro ⟨h_seq, rfl⟩
    have h16 : seq16 s1 = seq16 s2 := by
      unfold seq16
      rw [h_seq]
    rw [encode_of_length_le_nine s1 c1 (by omega), encode_of_length_le_nine s2 c1 (by omega),
      seq_lo_eq, seq_hi_eq, seq_lo_eq, seq_hi_eq, h16]

/-- C17 at the sequences -1 and 65535, which agree modulo 65536, and the command "GO". -/
theorem C17_round_trip_witness :
    (∃ data, encode (-1) (cstr "GO") = some data ∧
      decode data = some (seq16 (-1), cstr "GO")) ∧
    (seq16 (-1) : Int) = (-1) % 65536 ∧
    (encode (-1) (cstr "GO") = encode 65535 (cstr "GO") ↔
      (-1 : Int) % 65536 = 65535 % 65536 ∧ cstr "GO" = cstr "GO") :=
  C17_round_trip (-1) 65535 (cstr "GO") (cstr "GO") (by decide) (by decide)


/-- An event that the loop body passes over leaves the state of the rest of the run as it
would be without it. -/
theorem run_loop_skip_state (state : AppState) (event : InputEvent) (events : List InputEvent)
    (h_body : loop_body state event = some { state := state, calls := [], broke := false }) :
    (run_loop state (event :: events)).map Pass.state =
      (run_loop state events).map Pass.state := by
  rw [run_loop_cons, h_body, Option.some_bind]
  generalize run_loop state events = result
  cases result <;> rfl

theorem key_up_index_eq (state : AppState) (h_lo : 0 ≤ state.command_index) :
    (key_up state).command_index = (state.command_index + 1) % 5 := by
  unfold key_up commands_count
  exact Int.tmod_eq_emod (by omega) (by decide)

theorem key_down_index_eq (state : AppState) (h_lo : 0 ≤ state.command_index) :
    (key_down state).command_index = (state.command_index - 1 + 5) % 5 := by
  unfold key_down commands_count
  exact Int.tmod_eq_emod (by omega) (by decide)

/-- The state after a list of events without a short Back, from a state with a valid index:
the index moves by the number of Up minus the number of Down modulo 5, the sequence by the
number of Up, Down and Ok modulo 2^16. -/
theorem run_loop_closed_form (events : List InputEvent) : ∀ (state : AppState),
    0 ≤ state.command_index → state.command_index < commands_count →
    short InputKeyBack ∉ events →
    ∃ final, (run_loop state events).map Pass.state = some final ∧
      final.command_index =
        (state.command_index + (events.count (short InputKeyUp) : Int) -
          (events.count (short InputKeyDown) : Int)) % 5 ∧
      final.sequence % 65536 =
        (state.sequence + ((events.count (short InputKeyUp) +
          events.count (short InputKeyDown) + events.count (short InputKeyOk) : Nat) : Int)) %
          65536 := by
  induction events with
  | nil =>
    intro state h_lo h_hi _
    refine ⟨state, rfl, ?_, ?_⟩
    · unfold commands_count at h_hi
      simp only [List.count_nil]
      omega
    · simp
  | cons event events ih =>
    intro state h_lo h_hi h_back
    have h_back1 : short InputKeyBack ∉ events := fun h => h_back (List.mem_cons_of_mem _ h)
    have h_ne : event ≠ short InputKeyBack := fun h => h_back (h ▸ List.mem_cons_self _ _)
    have h_skip : loop_body state event = some { state := state, calls := [], broke := false } →
        event ≠ short InputKeyUp → event ≠ short InputKeyDown → event ≠ short InputKeyOk →
        ∃ final, (run_loop state (event :: events)).map Pass.state = some final ∧
          final.command_index =
            (state.command_index + ((event :: events).count (short InputKeyUp) : Int) -
              ((event :: events).count (short InputKeyDown) : Int)) % 5 ∧
          final.sequence % 65536 =
            (state.sequence + (((event :: events).count (short InputKeyUp) +
              (event :: events).count (short InputKeyDown) +
              (event :: events).count (short InputKeyOk) : Nat) : Int)) % 65536 := by
      intro h_body h_u h_d h_k
      obtain ⟨final, h_run, h_ci, h_seq⟩ := ih state h_lo h_hi h_back1
      refine ⟨final, ?_, ?_, ?_⟩
      · rw [run_loop_skip_state state event events h_body, h_run]
      · rw [List.count_cons_of_ne (Ne.symm h_u), List.count_cons_of_ne (Ne.symm h_d)]
        exact h_ci
      · rw [List.count_cons_of_ne (Ne.symm h_u), List.count_cons_of_ne (Ne.symm h_d),
          List.count_cons_of_ne (Ne.symm h_k)]
        exact h_seq
    obtain ⟨type, key⟩ := event
    cases type with
    | InputTypeOther code =>
      exact h_skip (loop_body_other_type state code key) (by simp [short]) (by simp [short])
        (by simp [short])
    | InputTypeShort =>
      cases key with
      | InputKeyUp =>
        have hv := key_up_index state h_lo h_hi
        obtain ⟨final, h_run, h_ci, h_seq⟩ := ih (key_up state) hv.1 hv.2 h_back1
        refine ⟨final, ?_, ?_, ?_⟩
        · rw [show ({ type := InputTypeShort, key := InputKeyUp } : InputEvent) =
            short InputKeyUp from rfl, run_loop_up_state _ _ h_lo h_hi, h_run]
        · rw [show ({ type := InputTypeShort, key := InputKeyUp } : InputEvent) =
            short InputKeyUp from rfl, List.count_cons_self,
            List.count_cons_of_ne (by decide), h_ci, key_up_index_eq state h_lo]
          push_cast
          omega
        · rw [show ({ type := InputTypeShort, key := InputKeyUp } : InputEvent) =
            short InputKeyUp from rfl, List.count_cons_self,
            List.count_cons_of_ne (by decide), List.count_cons_of_ne (by decide), h_seq]
          simp only [key_up, int16]
          push_cast
          omega
      | InputKeyDown =>
        have hv := key_down_index state h_lo h_hi
        obtain ⟨final, h_run, h_ci, h_seq⟩ := ih (key_down state) hv.1 hv.2 h_back1
        refine ⟨final, ?_, ?_, ?_⟩
        · rw [show ({ type := InputTypeShort, key := InputKeyDown } : InputEvent) =
            short InputKeyDown from rfl, run_loop_down_state _ _ h_lo h_hi, h_run]
        · rw [show ({ type := InputTypeShort, key := InputKeyDown } : InputEvent) =
            short InputKeyDown from rfl, List.count_cons_self,
            List.count_cons_of_ne (by decide), h_ci, key_down_index_eq state h_lo]
          push_cast
          omega
        · rw [show ({ type := InputTypeShort, key := InputKeyDown } : InputEvent) =
            short InputKeyDown from rfl, List.count_cons_self,
            List.count_cons_of_ne (by decide), List.count_cons_of_ne (by decide), h_seq]
          simp only [key_down, int16]
          push_cast
          omega
      | InputKeyOk =>
        obtain ⟨final, h_run, h_ci, h_seq⟩ := ih (key_ok state) h_lo h_hi h_back1
        refine ⟨final, ?_, ?_, ?_⟩
        · rw [show ({ type := InputTypeShort, key := InputKeyOk } : InputEvent) =
            short InputKeyOk from rfl, run_loop_ok_state _ _ h_lo h_hi, h_run]
        · rw [show ({ type := InputTypeShort, key := InputKeyOk } : InputEvent) =
            short InputKeyOk from rfl, List.count_cons_of_ne (by decide),
            List.count_cons_of_ne (by decide), h_ci]
          rfl
        · rw [show ({ type := InputTypeShort, key := InputKeyOk } : InputEvent) =
            short InputKeyOk from rfl, List.count_cons_self,
            List.count_cons_of_ne (by decide), List.count_cons_of_ne (by decide), h_seq]
          simp only [key_ok, int16]
          push_cast
          omega
      | InputKeyBack => exact absurd rfl h_ne
      | InputKeyOther code =>
        exact h_skip (loop_body_other_key state code) (by simp [short]) (by simp [short])
          (by simp [short])


/-- C18: after processing from startup any finite list of events without a short Back, with
`u` short Up, `d` short Down and `k` short Ok among them, the state has
`command_index = (u - d) mod 5`, taken in 0..4, and a sequence congruent to `u + d + k`
modulo 65536, whatever the order of the events and whatever other events the list holds. -/
theorem C18_closed_form (bt_active : Bool) (events : List InputEvent)
    (h_back : short InputKeyBack ∉ events) :
    ∃ pass, beacon_remote_app bt_active events = some pass ∧
      pass.state.command_index =
        ((events.count (short InputKeyUp) : Int) -
          (events.count (short InputKeyDown) : Int)) % 5 ∧
      0 ≤ pass.state.command_index ∧ pass.state.command_index ≤ 4 ∧
      pass.state.sequence % 65536 =
        ((events.count (short InputKeyUp) + events.count (short InputKeyDown) +
          events.count (short InputKeyOk) : Nat) : Int) % 65536 := by
  obtain ⟨final, h_run, h_ci, h_seq⟩ :=
    run_loop_closed_form events initial_state (by decide) (by decide) h_back
  rw [← beacon_remote_app_map_state bt_active events] at h_run
  obtain ⟨pass, h_app, h_state⟩ := exists_of_map_state h_run
  have h_ci0 : final.command_index =
      ((events.count (short InputKeyUp) : Int) -
        (events.count (short InputKeyDown) : Int)) % 5 := by
    rw [h_ci]
    simp [initial_state]
  have h_seq0 : final.sequence % 65536 =
      ((events.count (short InputKeyUp) + events.count (short InputKeyDown) +
        events.count (short InputKeyOk) : Nat) : Int) % 65536 := by
    rw [h_seq]
    simp [initial_state]
  refine ⟨pass, h_app, ?_, ?_, ?_, ?_⟩
  · rw [h_state]
    exact h_ci0
  · rw [h_state, h_ci0]
    omega
  · rw [h_state, h_ci0]
    omega
  · rw [h_state]
    exact h_seq0

/-- C18 at three Up, one Down, one Ok, a long press and a key without action, in mixed
order: the index is (3 - 1) mod 5 = 2 and the sequence is congruent to 5. -/
theorem C18_closed_form_witness :
    ∃ pass, beacon_remote_app true
        [short InputKeyUp, short InputKeyDown, { type := InputTypeOther 3, key := InputKeyUp },
          short InputKeyUp, short InputKeyOk, short (InputKeyOther 2), short InputKeyUp] =
        some pass ∧
      pass.state.command_index =
        (([short InputKeyUp, short InputKeyDown, { type := InputTypeOther 3, key := InputKeyUp },
          short InputKeyUp, short InputKeyOk, short (InputKeyOther 2),
          short InputKeyUp].count (short InputKeyUp) : Int) -
          ([short InputKeyUp, short InputKeyDown, { type := InputTypeOther 3, key := InputKeyUp },
          short InputKeyUp, short InputKeyOk, short (InputKeyOther 2),
          short InputKeyUp].count (short InputKeyDown) : Int)) % 5 ∧
      0 ≤ pass.state.command_index ∧ pass.state.command_index ≤ 4 ∧
      pass.state.sequence % 65536 =
        (([short InputKeyUp, short InputKeyDown, { type := InputTypeOther 3, key := InputKeyUp },
          short InputKeyUp, short InputKeyOk, short (InputKeyOther 2),
          short InputKeyUp].count (short InputKeyUp) +
          [short InputKeyUp, short InputKeyDown, { type := InputTypeOther 3, key := InputKeyUp },
          short InputKeyUp, short InputKeyOk, short (InputKeyOther 2),
          short InputKeyUp].count (short InputKeyDown) +
          [short InputKeyUp, short InputKeyDown, { type := InputTypeOther 3, key := InputKeyUp },
          short InputKeyUp, short InputKeyOk, short (InputKeyOther 2),
          short InputKeyUp].count (short InputKeyOk) : Nat) : Int) % 65536 :=
  C18_closed_form true
    [short InputKeyUp, short InputKeyDown, { type := InputTypeOther 3, key := InputKeyUp },
      short InputKeyUp, short InputKeyOk, short (InputKeyOther 2), short InputKeyUp]
    (by decide)

/-- C19: with the 32-byte buffer, the stores to the indices 0..22 always succeed, and every
byte of the copy of the command lands below index 32 if and only if the command has at most
9 bytes, which is also when the encoder has a result; for every catalog command (each of at
most 5 bytes) no store is out of range and neither the 8-bit `data_len` nor the 8-bit cursor
wraps. -/
theorem C19_buffer_safety (sequence : Int) (cmd : List Nat) :
    encode sequence cmd =
      ((memcpy ((header sequence cmd.length).map some ++ List.replicate 9 none) 23 cmd).bind
        fun buffer => load buffer (final_length cmd.length)) ∧
    ((header sequence cmd.length).map some ++ List.replicate 9 none).length = 32 ∧
    ((∃ buffer, memcpy ((header sequence cmd.length).map some ++ List.replicate 9 none) 23 cmd =
        some buffer) ↔ cmd.length ≤ 9) ∧
    ((∃ data, encode sequence cmd = some data) ↔ cmd.length ≤ 9) ∧
    (∀ label ∈ commands,
      label.length ≤ 5 ∧ (∃ data, encode sequence label = some data) ∧
      data_len label.length = 2 + label.length ∧
      element_length label.length = 19 + label.length ∧
      cursor_after_copy label.length = 23 + label.length ∧
      final_length label.length = 23 + label.length) := by
  have h_copy : (∃ buffer,
      memcpy ((header sequence cmd.length).map some ++ List.replicate 9 none) 23 cmd =
        some buffer) ↔ cmd.length ≤ 9 := by
    constructor
    · rintro ⟨buffer, h_some⟩
      by_contra h_long
      have h_none := memcpy_eq_none cmd
        ((header sequence cmd.length).map some ++ List.replicate 9 none) 23
        (by rintro rfl; simp at h_long)
        (by simp [header_length]; omega)
      rw [h_none] at h_some
      cases h_some
    · intro h_short
      exact ⟨_, memcpy_eq_some cmd _ 23 (by simp [header_length]; omega)⟩
  have h_enc : (∃ data, encode sequence cmd = some data) ↔ cmd.length ≤ 9 := by
    constructor
    · rintro ⟨data, h_some⟩
      by_contra h_long
      rw [encode_of_ten_le_length sequence cmd (by omega)] at h_some
      cases h_some
    · intro h_short
      exact ⟨_, encode_of_length_le_nine sequence cmd h_short⟩
  refine ⟨encode_eq_memcpy sequence cmd, by simp [header_length], h_copy, h_enc, ?_⟩
  intro label h_label
  have h_len : label.length ≤ 5 := by
    simp only [commands, List.mem_cons, List.mem_singleton, List.not_mem_nil, or_false]
      at h_label
    rcases h_label with rfl | rfl | rfl | rfl | rfl <;> decide
  refine ⟨h_len, ⟨_, encode_of_length_le_nine sequence label (by omega)⟩, ?_, ?_, ?_, ?_⟩
  · unfold data_len uint8
    omega
  · exact element_length_eq _ (by omega)
  · unfold cursor_after_copy uint8
    omega
  · unfold final_length cursor_after_copy uint8
    split <;> omega

end BeaconRemote
